import Mathlib

/-!
# Whisper JNI bridge (`app/src/main/cpp/whisper_jni.cpp`)

A shallow embedding of the three JNI entry points `initModel`, `transcribeAudio`
and `freeModel`, together with theorems about the transcript they serialise.

Conventions of the embedding:

* a C string (`const char *`) is the list of its characters before the NUL
  terminator, a `char` being a `Char`; a null pointer is `none`. The code
  compares a `char` with three ASCII characters only, so the bytes of a
  multi-byte UTF-8 sequence, none of which is ASCII, pass unchanged whether
  they are taken one by one or as one character;
* `std::string` values are lists of characters, `+=` is `++`;
* `jlong`, `jint`, `jshort`, `int64_t` values are integers; a pointer is its
  64-bit address, `nullptr` is `0`, and `reinterpret_cast` between `jlong` and
  a pointer keeps the number;
* a finite `float` / `double` value is the rational it denotes, and every
  conversion or arithmetic operation rounds its exact result to the nearest
  representable value, ties to even (IEEE 754 binary32 / binary64);
* calls into JNI, the log and the whisper library are recorded, in order, in a
  list of `Call`s returned next to the result.
-/

namespace WhisperJni

/-! ## Floating point -/

/-- Nearest integer, a tie going to the even neighbour. -/
def roundHalfEven (x : ℚ) : ℤ :=
  let f := ⌊x⌋
  let r := x - f
  if r < 1 / 2 then f
  else if 1 / 2 < r then f + 1
  else if f % 2 = 0 then f else f + 1

/-- Round to nearest, ties to even, in a binary format with `prec` significand
bits and least normal exponent `emin`: the result is a multiple of the unit in
the last place `2 ^ (e - (prec - 1))`, where `e = max ⌊log₂ |x|⌋ emin`.
Overflow is not modelled: the operands of the bridge (a 16-bit sample, a 64-bit
time stamp) stay many orders of magnitude below the largest finite value. -/
def roundBinary (prec : ℕ) (emin : ℤ) (x : ℚ) : ℚ :=
  let e := max (Int.log 2 |x|) emin
  let ulp : ℚ := (2 : ℚ) ^ (e - (prec - 1))
  roundHalfEven (x / ulp) * ulp

/-- Rounding to `float` (binary32). -/
def roundF32 (x : ℚ) : ℚ := roundBinary 24 (-126) x

/-- Rounding to `double` (binary64). -/
def roundF64 (x : ℚ) : ℚ := roundBinary 53 (-1022) x

/-- Line 68, `samples[i] / 32768.0f`: the sample is converted to `float`, then
divided by the `float` literal `32768.0f`. -/
def sampleToFloat (s : Int) : ℚ :=
  roundF32 (roundF32 (s : ℚ) / roundF32 32768)

/-- Lines 104-105, `t0 * 0.01`: the `int64_t` is converted to `double`, then
multiplied by the `double` literal `0.01`. -/
def toSeconds (t : Int) : ℚ :=
  roundF64 (roundF64 (t : ℚ) * roundF64 (1 / 100))

/-- The `w` decimal digits of `n`, most significant first, zero padded. -/
def fixedDigits (w n : Nat) : List Char :=
  (List.range w).reverse.map (fun k => Nat.digitChar (n / 10 ^ k % 10))

/-- The call `std::to_string(double)` of line 118, which prints as `printf`
does for `%f`: an optional minus sign, the integer part, a point and six
fraction digits, the value being rounded to the nearest millionth, ties to
even. A negative zero does not occur: the product of line 104 is zero only for
the time stamp `0`. -/
def to_string (x : ℚ) : List Char :=
  let n : Nat := (roundHalfEven (|x| * 1000000)).toNat
  (if x < 0 then ['-'] else []) ++ (Nat.repr (n / 1000000)).toList ++ ['.']
    ++ fixedDigits 6 (n % 1000000)

/-! ## JSON escaping of a segment text (lines 107-114) -/

/-- The loop of lines 109-114: `p` walks over the characters of `text`, and
`escaped_text` grows by `+=` at every step. -/
def escapeLoop : List Char → List Char → List Char
  | [], escaped_text => escaped_text
  | c :: p, escaped_text =>
    if c = '"' then escapeLoop p (escaped_text ++ "\\\"".toList)
    else if c = '\\' then escapeLoop p (escaped_text ++ "\\\\".toList)
    else if c = '\n' then escapeLoop p (escaped_text ++ "\\n".toList)
    else escapeLoop p (escaped_text ++ [c])

/-- Lines 108-114: `escaped_text` starts empty and is filled by the loop. -/
def escapeJson (text : List Char) : List Char :=
  escapeLoop text []

/-! ## The collaborators: JNI values, the log, the whisper library -/

/-- A `jstring` that is not null. `utfChars` is what `GetStringUTFChars`
returns for it: the characters of the string, or `none` for a null pointer. -/
structure JString where
  utfChars : Option (List Char)

/-- A `jshortArray` that is not null. `GetArrayLength` returns the length of
`elems`; `GetShortArrayElements` returns the elements when `readable`, and a
null pointer otherwise. -/
structure JShortArray where
  elems : List Int
  readable : Bool

/-- The constants of `enum whisper_sampling_strategy`. -/
inductive SamplingStrategy where
  | GREEDY
  | BEAM_SEARCH
  deriving DecidableEq

/-- The fields of `struct whisper_full_params` that the bridge sets. -/
structure FullParams where
  strategy : SamplingStrategy
  print_progress : Bool
  translate : Bool
  language : List Char
  n_threads : Int
  no_context : Bool
  single_segment : Bool
  deriving DecidableEq

/-- One segment held by the context after `whisper_full`: what the accessors
`whisper_full_get_segment_text`, `_t0` and `_t1` return for its index. -/
structure Segment where
  text : Option (List Char)
  t0 : Int
  t1 : Int
  deriving DecidableEq

/-- The whisper library (`whisper.h` is not part of the repository): any
behaviour of its entry points is allowed. `whisper_full` returns its status
together with the segments the context holds afterwards. -/
structure Whisper where
  whisper_init_from_file_with_params : List Char → Int
  whisper_full_default_params : SamplingStrategy → FullParams
  whisper_full : Int → FullParams → List ℚ → Int × List Segment

/-- A call that leaves the bridge. -/
inductive Call where
  | LOGI (msg : List Char)
  | LOGE (msg : List Char)
  | GetStringUTFChars
  | ReleaseStringUTFChars
  | GetArrayLength
  | GetShortArrayElements
  | ReleaseShortArrayElements
  | whisper_context_default_params
  | whisper_init_from_file_with_params (path : List Char)
  | whisper_full_default_params (strategy : SamplingStrategy)
  | whisper_full (ctx : Int) (params : FullParams) (pcmf32 : List ℚ)
  | whisper_full_n_segments (ctx : Int)
  | whisper_full_get_segment_text (ctx : Int) (i : Nat)
  | whisper_full_get_segment_t0 (ctx : Int) (i : Nat)
  | whisper_full_get_segment_t1 (ctx : Int) (i : Nat)
  | whisper_free (ctx : Int)
  deriving DecidableEq

/-- The value an entry point returns, with the calls it made. -/
structure Outcome (α : Type) where
  result : α
  calls : List Call

/-! ## The entry points -/

/-- Lines 13-44, `Java_com_yourname_smartrecorder_data_stt_WhisperEngine_initModel`.
The result is the handle, `0` for none. -/
def initModel (lib : Whisper) (modelPath : Option JString) : Outcome Int :=
  match modelPath with
  | none => ⟨0, [Call.LOGE "Model path is null".toList]⟩
  | some s =>
    match s.utfChars with
    | none =>
      ⟨0, [Call.GetStringUTFChars, Call.LOGE "Failed to get model path string".toList]⟩
    | some path =>
      let ctx := lib.whisper_init_from_file_with_params path
      let calls := [Call.GetStringUTFChars,
        Call.LOGI ("Loading model from: ".toList ++ path),
        Call.whisper_context_default_params,
        Call.whisper_init_from_file_with_params path]
      if ctx = 0 then
        ⟨0, calls ++ [Call.LOGE ("Failed to load model from: ".toList ++ path),
          Call.ReleaseStringUTFChars]⟩
      else
        ⟨ctx, calls ++ [Call.ReleaseStringUTFChars,
          Call.LOGI "Model loaded successfully".toList]⟩

/-- Lines 117-118: the JSON object appended for one segment. -/
def segmentEntry (escaped_text : List Char) (start end_ : ℚ) : List Char :=
  "\x7b\"text\":\"".toList ++ escaped_text ++ "\",\"start\":".toList
    ++ to_string start ++ ",\"end\":".toList ++ to_string end_ ++ "\x7d".toList

/-- The loop of lines 97-119. `i` is the loop counter and the list holds the
segments with the indices `i, i + 1, ...` that are still to be visited; the
state is `json` and the calls made so far. -/
def segmentLoop (ctx : Int) : Nat → List Segment → List Char × List Call →
    List Char × List Call
  | _, [], state => state
  | i, seg :: rest, (json, calls) =>
    match seg.text with
    | none =>
      segmentLoop ctx (i + 1) rest (json, calls ++ [Call.whisper_full_get_segment_text ctx i])
    | some text =>
      let t0 := seg.t0
      let t1 := seg.t1
      let start := toSeconds t0
      let end_ := toSeconds t1
      let escaped_text := escapeJson text
      let json := if i > 0 then json ++ ",".toList else json
      segmentLoop ctx (i + 1) rest
        (json ++ segmentEntry escaped_text start end_,
          calls ++ [Call.whisper_full_get_segment_text ctx i,
            Call.whisper_full_get_segment_t0 ctx i, Call.whisper_full_get_segment_t1 ctx i])

/-- Lines 78-85: the default parameters of greedy sampling, six fields then
overwritten. -/
def configureParams (lib : Whisper) : FullParams :=
  { lib.whisper_full_default_params SamplingStrategy.GREEDY with
    print_progress := false
    translate := false
    language := "en".toList
    n_threads := 4
    no_context := true
    single_segment := false }

/-- Lines 46-123,
`Java_com_yourname_smartrecorder_data_stt_WhisperEngine_transcribeAudio`. The
result is the string handed to `NewStringUTF`, the content of the Java string
returned; the sample rate is not used. -/
def transcribeAudio (lib : Whisper) (modelPtr : Int) (audioData : Option JShortArray)
    (_sampleRate : Int) : Outcome (List Char) :=
  if modelPtr = 0 then ⟨[], [Call.LOGE "Invalid parameters".toList]⟩
  else
    match audioData with
    | none => ⟨[], [Call.LOGE "Invalid parameters".toList]⟩
    | some arr =>
      let length := arr.elems.length
      if length = 0 then ⟨[], [Call.GetArrayLength]⟩
      else if arr.readable = false then
        ⟨[], [Call.GetArrayLength, Call.GetShortArrayElements]⟩
      else
        let samples := arr.elems
        let pcmf32 := samples.map sampleToFloat
        let jni := [Call.GetArrayLength, Call.GetShortArrayElements,
          Call.ReleaseShortArrayElements]
        let ctx := modelPtr
        if ctx = 0 then ⟨[], jni⟩
        else
          let params := configureParams lib
          let run := lib.whisper_full ctx params pcmf32
          let calls := jni ++ [Call.whisper_full_default_params SamplingStrategy.GREEDY,
            Call.whisper_full ctx params pcmf32]
          if run.1 ≠ 0 then
            ⟨[], calls ++ [Call.LOGE "Failed to transcribe audio".toList]⟩
          else
            let segments := run.2
            let loop := segmentLoop ctx 0 segments
              ("\x7b\"segments\":[".toList, calls ++ [Call.whisper_full_n_segments ctx])
            ⟨loop.1 ++ "]\x7d".toList, loop.2⟩

/-- Lines 125-135, `Java_com_yourname_smartrecorder_data_stt_WhisperEngine_freeModel`. -/
def freeModel (modelPtr : Int) : Outcome Unit :=
  if modelPtr = 0 then ⟨(), []⟩
  else
    let ctx := modelPtr
    if ctx ≠ 0 then ⟨(), [Call.whisper_free ctx]⟩ else ⟨(), []⟩

/-! ## Classification of the calls -/

/-- The calls into the whisper library. -/
def Call.isEngine : Call → Bool
  | Call.whisper_context_default_params => true
  | Call.whisper_init_from_file_with_params _ => true
  | Call.whisper_full_default_params _ => true
  | Call.whisper_full _ _ _ => true
  | Call.whisper_full_n_segments _ => true
  | Call.whisper_full_get_segment_text _ _ => true
  | Call.whisper_full_get_segment_t0 _ _ => true
  | Call.whisper_full_get_segment_t1 _ _ => true
  | Call.whisper_free _ => true
  | _ => false

/-- The JNI calls that look at the sample array. -/
def Call.readsSamples : Call → Bool
  | Call.GetArrayLength => true
  | Call.GetShortArrayElements => true
  | Call.ReleaseShortArrayElements => true
  | _ => false

/-- The segment accessors of the whisper library. -/
def Call.isAccessor : Call → Bool
  | Call.whisper_full_get_segment_text _ _ => true
  | Call.whisper_full_get_segment_t0 _ _ => true
  | Call.whisper_full_get_segment_t1 _ _ => true
  | _ => false

/-- The calls made up to and including the inference, on a run that reaches it. -/
def inferenceCalls (lib : Whisper) (modelPtr : Int) (arr : JShortArray) : List Call :=
  [Call.GetArrayLength, Call.GetShortArrayElements, Call.ReleaseShortArrayElements,
    Call.whisper_full_default_params SamplingStrategy.GREEDY,
    Call.whisper_full modelPtr (configureParams lib) (arr.elems.map sampleToFloat)]

/-- What the inference returns on a run that reaches it. -/
def inferenceRun (lib : Whisper) (modelPtr : Int) (arr : JShortArray) : Int × List Segment :=
  lib.whisper_full modelPtr (configureParams lib) (arr.elems.map sampleToFloat)

/-- A whisper library for examples: no model ever loads from the empty path
or anywhere else, and every inference returns `status` and leaves `segments`. -/
def stubLib (status : Int) (segments : List Segment) : Whisper where
  whisper_init_from_file_with_params := fun _ => 0
  whisper_full_default_params := fun strategy =>
    { strategy := strategy, print_progress := true, translate := false,
      language := "en".toList, n_threads := 1, no_context := false,
      single_segment := false }
  whisper_full := fun _ _ _ => (status, segments)

/-- Two segments, the first without a text. -/
def nullFirstSegments : List Segment :=
  [⟨none, 0, 50⟩, ⟨some "a".toList, 0, 100⟩]

/-- One segment whose times lie just past `2 ^ 32` seconds. -/
def lateSegments : List Segment :=
  [⟨some "a".toList, 429496729619, 429496729619⟩]

/-- One sample of silence, readable. -/
def oneSample : JShortArray := ⟨[0], true⟩

/-! ## The wording of the specification -/

/-- The escaping rule in the words of the specification: what one character of
the text is replaced by. -/
def escapeCharSpec (c : Char) : List Char :=
  if c = '"' then ['\\', '"']
  else if c = '\\' then ['\\', '\\']
  else if c = '\n' then ['\\', 'n']
  else [c]

/-- The standard unescaping of the three escapes the bridge produces:
backslash+quote is a quote, backslash+backslash a backslash, backslash+`n` a
newline; every other character stands for itself. -/
def unescapeJson : List Char → List Char
  | '\\' :: '"' :: rest => '"' :: unescapeJson rest
  | '\\' :: '\\' :: rest => '\\' :: unescapeJson rest
  | '\\' :: 'n' :: rest => '\n' :: unescapeJson rest
  | c :: rest => c :: unescapeJson rest
  | [] => []

/-- Length of the maximal run of backslashes that ends the list. -/
def trailingBackslashes (l : List Char) : Nat :=
  (l.reverse.takeWhile (fun c => c == '\\')).length

/-- Every double quote of the list is immediately preceded by a maximal run of
backslashes of odd length. -/
def QuotesEscaped (l : List Char) : Prop :=
  ∀ pre post : List Char, l = pre ++ '"' :: post → Odd (trailingBackslashes pre)

/-- Position `i` of the list holds a double quote that no backslash escapes: the
maximal run of backslashes right before it has even length. -/
def UnescapedQuoteAt (l : List Char) (i : Nat) : Prop :=
  l[i]? = some '"' ∧ Even (trailingBackslashes (l.take i))

/-- What the escaping loop maintains about `escaped_text`. -/
structure EscInv (l : List Char) : Prop where
  noNewline : '\n' ∉ l
  evenTail : Even (trailingBackslashes l)
  quotes : QuotesEscaped l

/-- The entries of the wire format: one per segment whose text is not null, in
engine order. -/
def specEntries (segments : List Segment) : List (List Char) :=
  segments.filterMap fun seg =>
    seg.text.map fun text =>
      segmentEntry (escapeJson text) (toSeconds seg.t0) (toSeconds seg.t1)

/-- The wire format of the specification: the entries separated by single
commas, between the opening `segments` bracket and the closing one. -/
def specJson (segments : List Segment) : List Char :=
  "\x7b\"segments\":[".toList ++ ",".toList.intercalate (specEntries segments)
    ++ "]\x7d".toList

/-- The characters `Nat.digitChar` yields for the ten decimal digits. -/
def IsDecimalDigit (c : Char) : Prop :=
  ∃ d : Nat, d < 10 ∧ c = Nat.digitChar d

/-- The number a string of decimal digits denotes. -/
def digitsValue (ds : List Char) : Nat :=
  ds.foldl (fun acc c => 10 * acc + (c.toNat - 48)) 0

/-- The number a decimal numeral `[-]ddd.ddd` denotes. -/
def decimalValue (s : List Char) : ℚ :=
  let unsigned (u : List Char) : ℚ :=
    let ip := u.takeWhile (fun c => c != '.')
    let fp := (u.dropWhile (fun c => c != '.')).drop 1
    (digitsValue ip : ℚ) + (digitsValue fp : ℚ) / (10 : ℚ) ^ fp.length
  match s with
  | '-' :: rest => - unsigned rest
  | _ => unsigned s

/-- The decimal numeral of `t / 100` with six fraction digits: sign, integer
part, point, the two digits of the hundredths, four zeros. -/
def centisecondsDecimal (t : Int) : List Char :=
  (if t < 0 then ['-'] else []) ++ (Nat.repr (t.natAbs / 100)).toList
    ++ ['.', Nat.digitChar (t.natAbs / 10 % 10), Nat.digitChar (t.natAbs % 10),
      '0', '0', '0', '0']

/-! ## Lemmas -/

/-! ### Rounding -/

theorem roundHalfEven_intCast (n : ℤ) : roundHalfEven (n : ℚ) = n := by
  simp [roundHalfEven]

theorem roundHalfEven_eq_of_abs_lt (y : ℚ) (n : ℤ) (h : |y - n| < 1 / 2) :
    roundHalfEven y = n := by
  rw [abs_lt] at h
  obtain ⟨h1, h2⟩ := h
  rcases le_or_lt (n : ℚ) y with hy | hy
  · have hf : ⌊y⌋ = n := by
      rw [Int.floor_eq_iff]; constructor <;> linarith
    unfold roundHalfEven
    simp only [hf]
    rw [if_pos (by linarith)]
  · have hf : ⌊y⌋ = n - 1 := by
      rw [Int.floor_eq_iff]; push_cast; constructor <;> linarith
    unfold roundHalfEven
    simp only [hf]
    push_cast
    rw [if_neg (by linarith), if_pos (by linarith)]
    ring

theorem abs_roundHalfEven_sub_le (x : ℚ) : |(roundHalfEven x : ℚ) - x| ≤ 1 / 2 := by
  have h0 := Int.floor_le x
  have h1 := Int.lt_floor_add_one x
  unfold roundHalfEven
  simp only
  rw [abs_le]
  split_ifs with a b c
  · constructor <;> linarith
  · push_cast; constructor <;> linarith
  · constructor <;> linarith
  · push_cast; constructor <;> linarith

theorem roundBinary_zero (prec : ℕ) (emin : ℤ) : roundBinary prec emin 0 = 0 := by
  simp [roundBinary, roundHalfEven]

theorem roundBinary_exact (prec : ℕ) (emin : ℤ) (m k : ℤ)
    (hm : |m| < 2 ^ prec) (hk : emin - (prec - 1) ≤ k) :
    roundBinary prec emin ((m : ℚ) * (2 : ℚ) ^ k) = (m : ℚ) * (2 : ℚ) ^ k := by
  by_cases hm0 : m = 0
  · simp [hm0, roundBinary_zero]
  unfold roundBinary
  simp only
  set x : ℚ := (m : ℚ) * (2 : ℚ) ^ k with hx
  set e : ℤ := max (Int.log 2 |x|) emin with he
  have h2 : (0 : ℚ) < 2 := by norm_num
  have hpow : (0 : ℚ) < (2 : ℚ) ^ k := zpow_pos h2 k
  have hxpos : 0 < |x| := by
    rw [hx, abs_mul, abs_of_pos hpow]
    exact mul_pos (abs_pos.mpr (by exact_mod_cast hm0)) hpow
  have hxlt : |x| < ((2 : ℕ) : ℚ) ^ ((prec : ℤ) + k) := by
    rw [hx, abs_mul, abs_of_pos hpow, zpow_add₀ (by norm_num), zpow_natCast]
    apply mul_lt_mul_of_pos_right _ hpow
    have : ((|m| : ℤ) : ℚ) < ((2 ^ prec : ℤ) : ℚ) := by exact_mod_cast hm
    simpa using this
  have hlog : Int.log 2 |x| < (prec : ℤ) + k :=
    (Int.lt_zpow_iff_log_lt (by norm_num) hxpos).mp hxlt
  have hle : e - (prec - 1) ≤ k := by
    rcases le_total (Int.log 2 |x|) emin with h | h
    · rw [he, max_eq_right h]; exact hk
    · rw [he, max_eq_left h]; omega
  obtain ⟨d, hd⟩ := Int.eq_ofNat_of_zero_le (sub_nonneg.mpr hle)
  have hdiv : x / (2 : ℚ) ^ (e - (prec - 1)) = ((m * 2 ^ d : ℤ) : ℚ) := by
    rw [hx, mul_div_assoc, ← zpow_sub₀ (by norm_num), hd]
    push_cast
    rw [zpow_natCast]
  rw [hdiv, roundHalfEven_intCast]
  rw [← hdiv]
  field_simp

/-- Below `2 ^ (E + 1)` the rounding error is at most half a unit in the last
place of the binade of `2 ^ E`. -/
theorem abs_roundBinary_sub_le (prec : ℕ) (emin E : ℤ) (x : ℚ) (hE : emin ≤ E)
    (hx : |x| < (2 : ℚ) ^ (E + 1)) :
    |roundBinary prec emin x - x| ≤ (2 : ℚ) ^ (E - prec) := by
  have h2 : (0 : ℚ) < 2 := by norm_num
  by_cases hx0 : x = 0
  · rw [hx0, roundBinary_zero]
    simpa using (zpow_pos h2 (E - prec)).le
  have hxpos : 0 < |x| := abs_pos.mpr hx0
  have hlog : Int.log 2 |x| < E + 1 :=
    (Int.lt_zpow_iff_log_lt (b := 2) (by norm_num) hxpos).mp (by simpa using hx)
  have he : max (Int.log 2 |x|) emin ≤ E := max_le (by omega) hE
  unfold roundBinary
  simp only
  set ulp : ℚ := (2 : ℚ) ^ (max (Int.log 2 |x|) emin - (prec - 1)) with hulp
  have hupos : 0 < ulp := zpow_pos h2 _
  have hr := abs_roundHalfEven_sub_le (x / ulp)
  have heq : (roundHalfEven (x / ulp) : ℚ) * ulp - x
      = ((roundHalfEven (x / ulp) : ℚ) - x / ulp) * ulp := by
    field_simp
  rw [heq, abs_mul, abs_of_pos hupos]
  have hhalf : 1 / 2 * ulp = (2 : ℚ) ^ (max (Int.log 2 |x|) emin - prec) := by
    rw [hulp]
    rw [show max (Int.log 2 |x|) emin - ((prec : ℤ) - 1)
      = (max (Int.log 2 |x|) emin - (prec : ℤ)) + 1 by ring]
    rw [zpow_add_one₀ (by norm_num : (2 : ℚ) ≠ 0)]
    ring
  calc |(roundHalfEven (x / ulp) : ℚ) - x / ulp| * ulp ≤ 1 / 2 * ulp :=
        mul_le_mul_of_nonneg_right hr hupos.le
    _ = (2 : ℚ) ^ (max (Int.log 2 |x|) emin - prec) := hhalf
    _ ≤ (2 : ℚ) ^ (E - prec) := zpow_le_zpow_right₀ (by norm_num) (by omega)

/-! ### Lemmas on the escaping -/

theorem escapeLoop_eq (text acc : List Char) :
    escapeLoop text acc = acc ++ (text.map escapeCharSpec).flatten := by
  induction text generalizing acc with
  | nil => simp [escapeLoop]
  | cons c p ih =>
    unfold escapeLoop
    by_cases h1 : c = '"'
    · simp [h1, ih, escapeCharSpec]
    · by_cases h2 : c = '\\'
      · simp [h2, ih, escapeCharSpec]
      · by_cases h3 : c = '\n'
        · simp [h3, ih, escapeCharSpec]
        · simp [h1, h2, h3, ih, escapeCharSpec]

theorem escapeJson_nil : escapeJson [] = [] := rfl

theorem escapeJson_cons (c : Char) (p : List Char) :
    escapeJson (c :: p) = escapeCharSpec c ++ escapeJson p := by
  simp [escapeJson, escapeLoop_eq]

theorem unescape_escape (text : List Char) : unescapeJson (escapeJson text) = text := by
  induction text with
  | nil => simp [escapeJson_nil, unescapeJson]
  | cons c p ih =>
    rw [escapeJson_cons]
    unfold escapeCharSpec
    by_cases h1 : c = '"'
    · subst h1; simp [unescapeJson, ih]
    · by_cases h2 : c = '\\'
      · subst h2; simp [unescapeJson, ih]
      · by_cases h3 : c = '\n'
        · subst h3; simp [unescapeJson, ih]
        · simp only [h1, h2, h3, if_false, List.singleton_append]
          rw [unescapeJson]
          · rw [ih]
          · intro rest h _; exact h2 h
          · intro rest h _; exact h2 h
          · intro rest h _; exact h2 h

theorem trailingBackslashes_snoc (l : List Char) (c : Char) :
    trailingBackslashes (l ++ [c]) = if c = '\\' then trailingBackslashes l + 1 else 0 := by
  unfold trailingBackslashes
  by_cases h : c = '\\'
  · simp [h, List.takeWhile_cons]
  · simp [h, List.takeWhile_cons]

theorem quotesEscaped_nil : QuotesEscaped [] := by
  intro pre post h
  cases pre <;> simp at h

theorem quotesEscaped_snoc (l : List Char) (c : Char) (hl : QuotesEscaped l)
    (hc : c = '"' → Odd (trailingBackslashes l)) : QuotesEscaped (l ++ [c]) := by
  intro pre post h
  rcases List.append_eq_append_iff.mp h with ⟨a, hpre, hc1⟩ | ⟨b, hl1, hb⟩
  · cases a with
    | nil =>
      simp at hc1
      simp at hpre
      rw [hpre]
      exact hc hc1.1
    | cons x a => simp at hc1
  · cases b with
    | nil =>
      simp at hb
      simp at hl1
      rw [← hl1]
      exact hc hb.1.symm
    | cons x b =>
      simp at hb
      rw [← hb.1] at hl1
      exact hl pre b hl1

theorem escInv_nil : EscInv [] :=
  ⟨by simp, by simp [trailingBackslashes], quotesEscaped_nil⟩

theorem escInv_step (l : List Char) (c : Char) (h : EscInv l) :
    EscInv (l ++ escapeCharSpec c) := by
  obtain ⟨hn, he, hq⟩ := h
  have hodd : Odd (trailingBackslashes (l ++ ['\\'])) := by
    rw [trailingBackslashes_snoc]; simpa using he.add_one
  have hqb : QuotesEscaped (l ++ ['\\']) := quotesEscaped_snoc l _ hq (fun hc => absurd hc (by decide))
  unfold escapeCharSpec
  by_cases h1 : c = '"'
  · subst h1
    simp only [if_true]
    rw [show l ++ ['\\', '"'] = (l ++ ['\\']) ++ ['"'] by simp]
    refine ⟨by simpa using hn, ?_, quotesEscaped_snoc _ _ hqb (fun _ => hodd)⟩
    rw [trailingBackslashes_snoc]; simp
  · by_cases h2 : c = '\\'
    · subst h2
      simp only [if_true, if_neg h1]
      rw [show l ++ ['\\', '\\'] = (l ++ ['\\']) ++ ['\\'] by simp]
      refine ⟨by simpa using hn, ?_, quotesEscaped_snoc _ _ hqb (fun hc => absurd hc (by decide))⟩
      rw [trailingBackslashes_snoc]; simpa using hodd.add_one
    · by_cases h3 : c = '\n'
      · subst h3
        simp only [if_true, if_neg h1, if_neg h2]
        rw [show l ++ ['\\', 'n'] = (l ++ ['\\']) ++ ['n'] by simp]
        refine ⟨by simpa using hn, ?_, quotesEscaped_snoc _ _ hqb (fun hc => absurd hc (by decide))⟩
        rw [trailingBackslashes_snoc]; simp
      · simp only [if_neg h1, if_neg h2, if_neg h3]
        refine ⟨?_, ?_, quotesEscaped_snoc _ _ hq (fun hc => absurd hc h1)⟩
        · simp only [List.mem_append, List.mem_singleton, not_or]
          exact ⟨hn, fun hc => h3 hc.symm⟩
        · rw [trailingBackslashes_snoc]; simp [h2]

theorem escInv_loop (text acc : List Char) (h : EscInv acc) : EscInv (escapeLoop text acc) := by
  induction text generalizing acc with
  | nil => simpa [escapeLoop] using h
  | cons c p ih =>
    have hstep := ih _ (escInv_step acc c h)
    rw [escapeLoop_eq] at hstep ⊢
    simpa using hstep

theorem escInv_escapeJson (text : List Char) : EscInv (escapeJson text) :=
  escInv_loop text [] escInv_nil

/-! ### The two conversions -/

theorem roundF32_intCast (m : ℤ) (hm : |m| < 2 ^ 24) : roundF32 (m : ℚ) = m := by
  have h := roundBinary_exact 24 (-126) m 0 hm (by norm_num)
  simpa [roundF32] using h

theorem roundF64_intCast (m : ℤ) (hm : |m| < 2 ^ 53) : roundF64 (m : ℚ) = m := by
  have h := roundBinary_exact 53 (-1022) m 0 hm (by norm_num)
  simpa [roundF64] using h

theorem sampleToFloat_exact (s : ℤ) (hs : -32768 ≤ s ∧ s ≤ 32767) :
    sampleToFloat s = (s : ℚ) / 32768 := by
  have habs : |s| < 2 ^ 24 := by rw [abs_lt]; constructor <;> omega
  have h1 : roundF32 (s : ℚ) = s := roundF32_intCast s habs
  have h2 : roundF32 (32768 : ℚ) = 32768 := by
    simpa using roundF32_intCast 32768 (by norm_num)
  have h3 := roundBinary_exact 24 (-126) s (-15) habs (by norm_num)
  have h4 : (s : ℚ) * (2 : ℚ) ^ (-15 : ℤ) = (s : ℚ) / 32768 := by
    rw [zpow_neg, div_eq_mul_inv]; norm_num
  unfold sampleToFloat
  rw [h1, h2, ← h4]
  exact h3

/-- Evaluation of a rounding from a bracketing of the operand. -/
theorem roundBinary_eval (prec : ℕ) (emin e n : ℤ) (x : ℚ) (hemin : emin ≤ e)
    (hlo : (2 : ℚ) ^ e ≤ |x|) (hhi : |x| < (2 : ℚ) ^ (e + 1))
    (hn : |x / (2 : ℚ) ^ (e - (prec - 1)) - n| < 1 / 2) :
    roundBinary prec emin x = (n : ℚ) * (2 : ℚ) ^ (e - (prec - 1)) := by
  have h2 : (0 : ℚ) < 2 := by norm_num
  have hxpos : 0 < |x| := lt_of_lt_of_le (zpow_pos h2 e) hlo
  have hlog : Int.log 2 |x| = e := by
    apply le_antisymm
    · have := (Int.lt_zpow_iff_log_lt (b := 2) (by norm_num) hxpos).mp (by simpa using hhi)
      omega
    · exact (Int.zpow_le_iff_le_log (b := 2) (by norm_num) hxpos).mp (by simpa using hlo)
  unfold roundBinary
  simp only
  rw [hlog, max_eq_left hemin, roundHalfEven_eq_of_abs_lt _ n hn]

theorem roundF64_centi : roundF64 (1 / 100) = 5764607523034235 / 576460752303423488 := by
  have h := roundBinary_eval 53 (-1022) (-7) 5764607523034235 (1 / 100) (by norm_num)
    (by rw [abs_of_pos (by norm_num)]; norm_num [zpow_neg])
    (by rw [abs_of_pos (by norm_num)]; norm_num [zpow_neg])
    (by norm_num [zpow_neg, abs_lt])
  rw [roundF64, h]
  norm_num [zpow_neg]

/-- Below `2 ^ 32` seconds the `double` product of line 104 is within
`4 / 10 ^ 7` of the exact hundredth. -/
theorem abs_toSeconds_sub_lt (t : ℤ) (ht : |t| < 429496729600) :
    |toSeconds t - (t : ℚ) / 100| < 4 / 10000000 := by
  unfold toSeconds
  rw [roundF64_intCast t (lt_trans ht (by norm_num)), roundF64_centi]
  set c : ℚ := 5764607523034235 / 576460752303423488 with hc
  have hcpos : 0 < c := by rw [hc]; norm_num
  have htq : |(t : ℚ)| ≤ 429496729599 := by
    have h1 : |t| ≤ 429496729599 := by omega
    have : ((|t| : ℤ) : ℚ) ≤ ((429496729599 : ℤ) : ℚ) := by exact_mod_cast h1
    simpa using this
  have htnn : (0 : ℚ) ≤ |(t : ℚ)| := abs_nonneg _
  have hp : |(t : ℚ) * c| = |(t : ℚ)| * c := by rw [abs_mul, abs_of_pos hcpos]
  have hlt : |(t : ℚ) * c| < (2 : ℚ) ^ ((31 : ℤ) + 1) := by
    rw [hp]
    have : |(t : ℚ)| * c ≤ 429496729599 * c := mul_le_mul_of_nonneg_right htq hcpos.le
    have h2 : 429496729599 * c < (2 : ℚ) ^ ((31 : ℤ) + 1) := by rw [hc]; norm_num
    linarith
  have hr := abs_roundBinary_sub_le 53 (-1022) 31 ((t : ℚ) * c) (by norm_num) hlt
  have hpow : (2 : ℚ) ^ ((31 : ℤ) - ((53 : ℕ) : ℤ)) = 1 / 4194304 := by
    norm_num [zpow_neg]
  rw [hpow] at hr
  have hexact : |(t : ℚ) * c - (t : ℚ) / 100| = |(t : ℚ)| * (3 / 14411518807585587200) := by
    have : (t : ℚ) * c - (t : ℚ) / 100 = (t : ℚ) * (3 / 14411518807585587200) := by
      rw [hc]; ring
    rw [this, abs_mul, abs_of_pos (by norm_num : (0 : ℚ) < 3 / 14411518807585587200)]
  have htri : |roundF64 ((t : ℚ) * c) - (t : ℚ) / 100|
      ≤ |roundF64 ((t : ℚ) * c) - (t : ℚ) * c| + |(t : ℚ) * c - (t : ℚ) / 100| := by
    have := abs_add (roundF64 ((t : ℚ) * c) - (t : ℚ) * c) ((t : ℚ) * c - (t : ℚ) / 100)
    simpa using this
  have hr2 : |roundF64 ((t : ℚ) * c) - (t : ℚ) * c| ≤ 1 / 4194304 := hr
  rw [hexact] at htri
  have hsys : |(t : ℚ)| * (3 / 14411518807585587200) ≤ 429496729599 * (3 / 14411518807585587200) :=
    mul_le_mul_of_nonneg_right htq (by norm_num)
  have hnum : (1 : ℚ) / 4194304 + 429496729599 * (3 / 14411518807585587200) < 4 / 10000000 := by
    norm_num
  linarith

theorem fixedDigits_six (m : Nat) :
    fixedDigits 6 m = [Nat.digitChar (m / 100000 % 10), Nat.digitChar (m / 10000 % 10),
      Nat.digitChar (m / 1000 % 10), Nat.digitChar (m / 100 % 10),
      Nat.digitChar (m / 10 % 10), Nat.digitChar (m % 10)] := by
  simp [fixedDigits, List.range_succ]

/-- Below `2 ^ 32` seconds the printed numeral is the one of the exact quotient
`t / 100`. -/
theorem to_string_toSeconds (t : ℤ) (ht : |t| < 429496729600) :
    to_string (toSeconds t) = centisecondsDecimal t := by
  have hsmall : |toSeconds t - (t : ℚ) / 100| < 1 / 2000000 :=
    lt_trans (abs_toSeconds_sub_lt t ht) (by norm_num)
  -- the sign
  have hsign : toSeconds t < 0 ↔ t < 0 := by
    rw [abs_lt] at hsmall
    constructor
    · intro h
      by_contra hn
      have : (0 : ℚ) ≤ (t : ℚ) := by exact_mod_cast (not_lt.mp hn)
      rcases eq_or_lt_of_le (not_lt.mp hn) with h0 | hpos
      · rw [← h0] at h
        simp [toSeconds, roundF64, roundBinary_zero, roundHalfEven] at h
      · have : (1 : ℚ) ≤ (t : ℚ) := by exact_mod_cast hpos
        linarith [hsmall.1]
    · intro h
      have : (t : ℚ) ≤ -1 := by exact_mod_cast (Int.le_sub_one_of_lt h)
      linarith [hsmall.2]
  -- the number of millionths
  have hn : roundHalfEven (|toSeconds t| * 1000000) = |t| * 10000 := by
    apply roundHalfEven_eq_of_abs_lt
    have h1 : |(|toSeconds t| - |(t : ℚ) / 100|)| ≤ |toSeconds t - (t : ℚ) / 100| :=
      abs_abs_sub_abs_le_abs_sub _ _
    have h2 : |toSeconds t| * 1000000 - ((|t| * 10000 : ℤ) : ℚ)
        = (|toSeconds t| - |(t : ℚ) / 100|) * 1000000 := by
      push_cast
      rw [abs_div, abs_of_pos (by norm_num : (0 : ℚ) < 100)]
      ring
    rw [h2, abs_mul, abs_of_pos (by norm_num : (0 : ℚ) < 1000000)]
    have := lt_of_le_of_lt h1 hsmall
    linarith
  have hnat : (|t| * 10000).toNat = t.natAbs * 10000 := by
    rw [Int.abs_eq_natAbs]; omega
  have d0 : Nat.digitChar 0 = '0' := rfl
  unfold to_string centisecondsDecimal
  simp only [hn, hnat, fixedDigits_six]
  have e1 : t.natAbs * 10000 / 1000000 = t.natAbs / 100 := by omega
  have e2 : t.natAbs * 10000 % 1000000 / 100000 % 10 = t.natAbs / 10 % 10 := by omega
  have e3 : t.natAbs * 10000 % 1000000 / 10000 % 10 = t.natAbs % 10 := by omega
  have e4 : t.natAbs * 10000 % 1000000 / 1000 % 10 = 0 := by omega
  have e5 : t.natAbs * 10000 % 1000000 / 100 % 10 = 0 := by omega
  have e6 : t.natAbs * 10000 % 1000000 / 10 % 10 = 0 := by omega
  have e7 : t.natAbs * 10000 % 1000000 % 10 = 0 := by omega
  rw [e1, e2, e3, e4, e5, e6, e7]
  by_cases hneg : t < 0
  · simp [hsign.mpr hneg, hneg, d0]
  · simp [mt hsign.mp hneg, hneg, d0]

/-! ### Decimal numerals -/

theorem digitChar_value (d : Nat) (hd : d < 10) : (Nat.digitChar d).toNat - 48 = d := by
  interval_cases d <;> rfl

theorem isDecimalDigit_ne (c : Char) (h : IsDecimalDigit c) : c ≠ '.' ∧ c ≠ '-' := by
  obtain ⟨d, hd, rfl⟩ := h
  interval_cases d <;> decide

theorem digitsValue_snoc (l : List Char) (c : Char) :
    digitsValue (l ++ [c]) = 10 * digitsValue l + (c.toNat - 48) := by
  simp [digitsValue, List.foldl_append]

theorem toDigitsCore_spec (fuel : Nat) : ∀ (n : Nat) (ds : List Char), n < fuel →
    ∃ l : List Char, l ≠ [] ∧ Nat.toDigitsCore 10 fuel n ds = l ++ ds ∧ digitsValue l = n
      ∧ ∀ c ∈ l, IsDecimalDigit c := by
  induction fuel with
  | zero => intro n ds h; omega
  | succ fuel ih =>
    intro n ds h
    have hmod : n % 10 < 10 := Nat.mod_lt _ (by norm_num)
    simp only [Nat.toDigitsCore]
    by_cases h0 : n / 10 = 0
    · rw [if_pos h0]
      refine ⟨[Nat.digitChar (n % 10)], by simp, by simp, ?_, ?_⟩
      · have := digitsValue_snoc [] (Nat.digitChar (n % 10))
        simp only [List.nil_append] at this
        rw [this, digitChar_value _ hmod]
        simp [digitsValue]; omega
      · intro c hc
        simp only [List.mem_singleton] at hc
        exact ⟨n % 10, hmod, hc⟩
    · rw [if_neg h0]
      obtain ⟨l, hl, heq, hval, hdig⟩ := ih (n / 10) (Nat.digitChar (n % 10) :: ds) (by omega)
      refine ⟨l ++ [Nat.digitChar (n % 10)], by simp, by simp [heq], ?_, ?_⟩
      · rw [digitsValue_snoc, hval, digitChar_value _ hmod]; omega
      · intro c hc
        rcases List.mem_append.mp hc with hc | hc
        · exact hdig c hc
        · simp only [List.mem_singleton] at hc
          exact ⟨n % 10, hmod, hc⟩

theorem repr_spec (n : Nat) : (Nat.repr n).toList ≠ [] ∧ digitsValue (Nat.repr n).toList = n
    ∧ ∀ c ∈ (Nat.repr n).toList, IsDecimalDigit c := by
  obtain ⟨l, hl, heq, hval, hdig⟩ := toDigitsCore_spec (n + 1) n [] (by omega)
  have : (Nat.repr n).toList = l := by
    simp [Nat.repr, Nat.toDigits, heq, List.asString]
  rw [this]
  exact ⟨hl, hval, hdig⟩

theorem decimalValue_centisecondsDecimal (t : ℤ) :
    decimalValue (centisecondsDecimal t) = (t : ℚ) / 100 := by
  obtain ⟨hne, hval, hdig⟩ := repr_spec (t.natAbs / 100)
  set ip := (Nat.repr (t.natAbs / 100)).toList with hip
  set fp := [Nat.digitChar (t.natAbs / 10 % 10), Nat.digitChar (t.natAbs % 10),
      '0', '0', '0', '0'] with hfp
  have htake : (ip ++ '.' :: fp).takeWhile (fun c => c != '.') = ip := by
    rw [List.takeWhile_append_of_pos]
    · simp
    · intro c hc; simpa using (isDecimalDigit_ne c (hdig c hc)).1
  have hdrop : (ip ++ '.' :: fp).dropWhile (fun c => c != '.') = '.' :: fp := by
    rw [List.dropWhile_append_of_pos]
    · simp
    · intro c hc; simpa using (isDecimalDigit_ne c (hdig c hc)).1
  have hfpval : digitsValue fp = (t.natAbs % 100) * 10000 := by
    have h1 : t.natAbs / 10 % 10 < 10 := Nat.mod_lt _ (by norm_num)
    have h2 : t.natAbs % 10 < 10 := Nat.mod_lt _ (by norm_num)
    have d1 := digitChar_value _ h1
    have d2 := digitChar_value _ h2
    simp only [hfp, digitsValue, List.foldl_cons, List.foldl_nil]
    have z : ('0' : Char).toNat - 48 = 0 := rfl
    rw [z]
    omega
  have hunsigned : (digitsValue ip : ℚ) + (digitsValue fp : ℚ) / (10 : ℚ) ^ fp.length
      = (t.natAbs : ℚ) / 100 := by
    rw [hval, hfpval]
    have hlen : fp.length = 6 := by simp [hfp]
    rw [hlen]
    have hsplit : (t.natAbs : ℚ) = ((t.natAbs / 100 : ℕ) : ℚ) * 100 + ((t.natAbs % 100 : ℕ) : ℚ) := by
      have := Nat.div_add_mod t.natAbs 100
      have h' : ((100 * (t.natAbs / 100) + t.natAbs % 100 : ℕ) : ℚ) = (t.natAbs : ℚ) := by
        rw [this]
      push_cast at h'
      linarith
    push_cast
    rw [hsplit]
    ring
  have hmain : ∀ s, s = ip ++ '.' :: fp →
      (let ipp := s.takeWhile (fun c => c != '.')
       let fpp := (s.dropWhile (fun c => c != '.')).drop 1
       (digitsValue ipp : ℚ) + (digitsValue fpp : ℚ) / (10 : ℚ) ^ fpp.length)
        = (t.natAbs : ℚ) / 100 := by
    intro s hs
    simp only [hs, htake, hdrop, List.drop_succ_cons, List.drop_zero]
    exact hunsigned
  unfold centisecondsDecimal
  by_cases hneg : t < 0
  · simp only [hneg, if_true]
    have hs : ['-'] ++ ip ++ '.' :: fp = '-' :: (ip ++ '.' :: fp) := by simp
    rw [hs]
    simp only [decimalValue]
    rw [hmain _ rfl]
    have h' : (t.natAbs : ℚ) = -(t : ℚ) := by
      rw [Nat.cast_natAbs, abs_of_neg hneg]; push_cast; rfl
    rw [h']; ring
  · simp only [hneg, if_false, List.nil_append]
    obtain ⟨c, rest, hcons⟩ := List.exists_cons_of_ne_nil hne
    have hc : c ≠ '-' := (isDecimalDigit_ne c (hdig c (by rw [hcons]; simp))).2
    have hs : ip ++ '.' :: fp = c :: (rest ++ '.' :: fp) := by rw [hcons]; simp
    have hdv : decimalValue (c :: (rest ++ '.' :: fp))
        = (let ipp := (c :: (rest ++ '.' :: fp)).takeWhile (fun c => c != '.')
           let fpp := ((c :: (rest ++ '.' :: fp)).dropWhile (fun c => c != '.')).drop 1
           (digitsValue ipp : ℚ) + (digitsValue fpp : ℚ) / (10 : ℚ) ^ fpp.length) := by
      unfold decimalValue
      split
      · next rest' heq => exact absurd (List.cons.inj heq).1 hc
      · rfl
    rw [hs, hdv, hmain _ hs.symm]
    have h' : (t.natAbs : ℚ) = (t : ℚ) := by
      rw [Nat.cast_natAbs, abs_of_nonneg (not_lt.mp hneg)]
    rw [h']

/-! ### A time stamp beyond the exact range -/

theorem toSeconds_large : toSeconds 429496729619 = 2251799813784863 / 524288 := by
  unfold toSeconds
  have h1 : roundF64 ((429496729619 : ℤ) : ℚ) = ((429496729619 : ℤ) : ℚ) :=
    roundF64_intCast 429496729619 (by norm_num)
  rw [h1, roundF64_centi]
  have h := roundBinary_eval 53 (-1022) 32 4503599627569726
    (((429496729619 : ℤ) : ℚ) * (5764607523034235 / 576460752303423488)) (by norm_num)
    (by rw [abs_of_pos (by norm_num)]; norm_num)
    (by rw [abs_of_pos (by norm_num)]; norm_num)
    (by norm_num [zpow_neg, abs_lt])
  rw [roundF64, h]
  norm_num [zpow_neg]

theorem to_string_large :
    to_string (toSeconds 429496729619) = "4294967296.190001".toList := by
  rw [toSeconds_large]
  have hn : roundHalfEven (|(2251799813784863 / 524288 : ℚ)| * 1000000) = 4294967296190001 := by
    apply roundHalfEven_eq_of_abs_lt
    rw [abs_of_pos (by norm_num : (0 : ℚ) < 2251799813784863 / 524288)]
    norm_num [abs_lt]
  unfold to_string
  simp only [hn, fixedDigits_six]
  rw [if_neg (by norm_num)]
  decide

/-! ### The segment loop -/

/-- The loop only appends to `json`, and what it appends does not depend on
`json`. -/
theorem segmentLoop_json (ctx : Int) (segs : List Segment) :
    ∀ i : Nat, ∃ tail : List Char, ∀ (json : List Char) (calls : List Call),
      (segmentLoop ctx i segs (json, calls)).1 = json ++ tail := by
  induction segs with
  | nil => intro i; exact ⟨[], fun _ _ => by simp [segmentLoop]⟩
  | cons seg rest ih =>
    intro i
    obtain ⟨tail, ht⟩ := ih (i + 1)
    cases hseg : seg.text with
    | none =>
      refine ⟨tail, fun json calls => ?_⟩
      simp only [segmentLoop, hseg]
      exact ht json _
    | some text =>
      refine ⟨(if i > 0 then ",".toList else []) ++
        segmentEntry (escapeJson text) (toSeconds seg.t0) (toSeconds seg.t1) ++ tail,
        fun json calls => ?_⟩
      simp only [segmentLoop, hseg]
      rw [ht]; split_ifs <;> simp

/-- With a positive counter every entry is preceded by a comma. -/
theorem segmentLoop_pos (ctx : Int) (segs : List Segment) :
    ∀ (i : Nat) (json : List Char) (calls : List Call), 0 < i →
      (segmentLoop ctx i segs (json, calls)).1
        = json ++ ((specEntries segs).map (fun e => ",".toList ++ e)).flatten := by
  induction segs with
  | nil => intro i json calls _; simp [segmentLoop, specEntries]
  | cons seg rest ih =>
    intro i json calls hi
    cases hseg : seg.text with
    | none =>
      simp only [segmentLoop, hseg]
      rw [ih (i + 1) _ _ (by omega)]
      simp [specEntries, hseg]
    | some text =>
      simp only [segmentLoop, hseg]
      rw [ih (i + 1) _ _ (by omega)]
      simp [specEntries, hseg, hi]

theorem intercalate_cons_eq (sep e : List Char) (es : List (List Char)) :
    sep.intercalate (e :: es) = e ++ (es.map (fun x => sep ++ x)).flatten := by
  induction es generalizing e with
  | nil => simp [List.intercalate]
  | cons x xs ih =>
    have := ih x
    simp only [List.intercalate] at this ⊢
    simp [List.intersperse, this]

/-- The calls of the loop: the ones made before, then accessor calls only. -/
theorem segmentLoop_calls (ctx : Int) (segs : List Segment) :
    ∀ (i : Nat) (json : List Char) (calls : List Call),
      ∃ more : List Call, (segmentLoop ctx i segs (json, calls)).2 = calls ++ more
        ∧ ∀ c ∈ more, c.isAccessor = true := by
  induction segs with
  | nil => intro i json calls; exact ⟨[], by simp [segmentLoop]⟩
  | cons seg rest ih =>
    intro i json calls
    cases hseg : seg.text with
    | none =>
      simp only [segmentLoop, hseg]
      obtain ⟨more, h1, h2⟩ := ih (i + 1) json (calls ++ [Call.whisper_full_get_segment_text ctx i])
      refine ⟨Call.whisper_full_get_segment_text ctx i :: more, by simp [h1], ?_⟩
      intro c hc
      rcases List.mem_cons.mp hc with rfl | hc
      · rfl
      · exact h2 c hc
    | some text =>
      simp only [segmentLoop, hseg]
      obtain ⟨more, h1, h2⟩ := ih (i + 1)
        ((if i > 0 then json ++ ",".toList else json) ++
          segmentEntry (escapeJson text) (toSeconds seg.t0) (toSeconds seg.t1))
        (calls ++ [Call.whisper_full_get_segment_text ctx i,
          Call.whisper_full_get_segment_t0 ctx i, Call.whisper_full_get_segment_t1 ctx i])
      refine ⟨[Call.whisper_full_get_segment_text ctx i,
          Call.whisper_full_get_segment_t0 ctx i, Call.whisper_full_get_segment_t1 ctx i]
          ++ more, by rw [h1]; simp, ?_⟩
      intro c hc
      rcases List.mem_append.mp hc with hc | hc
      · simp only [List.mem_cons, List.mem_singleton, List.not_mem_nil, or_false] at hc
        rcases hc with rfl | rfl | rfl <;> rfl
      · exact h2 c hc

/-! ### The run past the argument checks -/

theorem transcribeAudio_failure (lib : Whisper) (modelPtr : Int) (arr : JShortArray)
    (sampleRate : Int) (hptr : modelPtr ≠ 0) (hne : arr.elems ≠ []) (hread : arr.readable = true)
    (hrun : (inferenceRun lib modelPtr arr).1 ≠ 0) :
    transcribeAudio lib modelPtr (some arr) sampleRate
      = ⟨[], inferenceCalls lib modelPtr arr ++ [Call.LOGE "Failed to transcribe audio".toList]⟩ := by
  have hlen : arr.elems.length ≠ 0 := by simpa using hne
  unfold inferenceRun at hrun
  simp [transcribeAudio, hptr, hlen, hread, hrun, inferenceCalls]

theorem transcribeAudio_success (lib : Whisper) (modelPtr : Int) (arr : JShortArray)
    (sampleRate : Int) (hptr : modelPtr ≠ 0) (hne : arr.elems ≠ []) (hread : arr.readable = true)
    (hrun : (inferenceRun lib modelPtr arr).1 = 0) :
    transcribeAudio lib modelPtr (some arr) sampleRate
      = ⟨(segmentLoop modelPtr 0 (inferenceRun lib modelPtr arr).2
            ("\x7b\"segments\":[".toList,
              inferenceCalls lib modelPtr arr ++ [Call.whisper_full_n_segments modelPtr])).1
          ++ "]\x7d".toList,
         (segmentLoop modelPtr 0 (inferenceRun lib modelPtr arr).2
            ("\x7b\"segments\":[".toList,
              inferenceCalls lib modelPtr arr ++ [Call.whisper_full_n_segments modelPtr])).2⟩ := by
  have hlen : arr.elems.length ≠ 0 := by simpa using hne
  unfold inferenceRun at hrun ⊢
  simp [transcribeAudio, hptr, hlen, hread, hrun, inferenceCalls]

/-- The output of the loop started at counter zero, by the first segment. -/
theorem segmentLoop_zero_json (ctx : Int) (segs : List Segment) (calls : List Call) :
    (segmentLoop ctx 0 segs ("\x7b\"segments\":[".toList, calls)).1
      = match segs with
        | [] => "\x7b\"segments\":[".toList
        | seg :: rest =>
          match seg.text with
          | none => "\x7b\"segments\":[".toList
              ++ ((specEntries rest).map (fun e => ",".toList ++ e)).flatten
          | some _ => "\x7b\"segments\":[".toList ++ ",".toList.intercalate (specEntries segs) := by
  cases segs with
  | nil => simp [segmentLoop]
  | cons seg rest =>
    cases hseg : seg.text with
    | none =>
      simp only [segmentLoop, hseg]
      rw [segmentLoop_pos ctx rest 1 _ _ (by omega)]
    | some text =>
      simp only [segmentLoop, hseg]
      rw [segmentLoop_pos ctx rest 1 _ _ (by omega)]
      simp [specEntries, hseg, intercalate_cons_eq]

/-- When the first segment has a text, or no segment has one, a successful run
returns the wire format. -/
theorem transcribeAudio_wire_format (lib : Whisper) (modelPtr : Int) (arr : JShortArray)
    (sampleRate : Int) (hptr : modelPtr ≠ 0) (hne : arr.elems ≠ []) (hread : arr.readable = true)
    (hrun : (inferenceRun lib modelPtr arr).1 = 0)
    (hhead : (∃ seg rest text, (inferenceRun lib modelPtr arr).2 = seg :: rest
        ∧ seg.text = some text) ∨ specEntries (inferenceRun lib modelPtr arr).2 = []) :
    (transcribeAudio lib modelPtr (some arr) sampleRate).result
      = specJson (inferenceRun lib modelPtr arr).2 := by
  rw [transcribeAudio_success lib modelPtr arr sampleRate hptr hne hread hrun]
  simp only [segmentLoop_zero_json, specJson]
  rcases hhead with ⟨seg, rest, text, hsegs, htext⟩ | hnil
  · rw [hsegs]; simp only [htext]
  · cases hsegs : (inferenceRun lib modelPtr arr).2 with
    | nil => simp [specEntries, List.intercalate]
    | cons seg rest =>
      rw [hsegs] at hnil
      cases htext : seg.text with
      | none =>
        have hrest : specEntries rest = [] := by
          simpa [specEntries, htext] using hnil
        simp [hnil, hrest, htext, List.intercalate]
      | some text => simp [specEntries, htext] at hnil

/-- When the first segment has no text and a later one has, a successful run
returns the entries with a comma in front of each, the first included. -/
theorem transcribeAudio_leading_comma (lib : Whisper) (modelPtr : Int) (arr : JShortArray)
    (sampleRate : Int) (hptr : modelPtr ≠ 0) (hne : arr.elems ≠ []) (hread : arr.readable = true)
    (hrun : (inferenceRun lib modelPtr arr).1 = 0) (seg : Segment) (rest : List Segment)
    (hsegs : (inferenceRun lib modelPtr arr).2 = seg :: rest) (htext : seg.text = none) :
    (transcribeAudio lib modelPtr (some arr) sampleRate).result
      = "\x7b\"segments\":[".toList
        ++ ((specEntries rest).map (fun e => ",".toList ++ e)).flatten ++ "]\x7d".toList := by
  rw [transcribeAudio_success lib modelPtr arr sampleRate hptr hne hread hrun]
  simp only [segmentLoop_zero_json, hsegs, htext]

/-! ## The claims -/

theorem to_string_zero : to_string (toSeconds 0) = "0.000000".toList := by
  rw [to_string_toSeconds 0 (by norm_num)]; decide

theorem to_string_hundred : to_string (toSeconds 100) = "1.000000".toList := by
  rw [to_string_toSeconds 100 (by norm_num)]; decide

/-- C1: the engine reports two segments, the first with a null text. The
bridge skips the first segment but still writes the separator in front of the
second, `[,` in the result, while the wire format has no separator there; the
same run on the list without the null segment returns the wire format. -/
theorem C1_null_first_segment_leaves_separator :
    (transcribeAudio (stubLib 0 nullFirstSegments) 1 (some oneSample) 16000).result
        = "\x7b\"segments\":[,\x7b\"text\":\"a\",\"start\":0.000000,\"end\":1.000000\x7d]\x7d".toList
      ∧ specJson nullFirstSegments
        = "\x7b\"segments\":[\x7b\"text\":\"a\",\"start\":0.000000,\"end\":1.000000\x7d]\x7d".toList
      ∧ (transcribeAudio (stubLib 0 (nullFirstSegments.filter fun s => s.text.isSome)) 1
          (some oneSample) 16000).result = specJson nullFirstSegments
      ∧ (transcribeAudio (stubLib 0 nullFirstSegments) 1 (some oneSample) 16000).result
        ≠ specJson nullFirstSegments := by
  have hentries : specEntries nullFirstSegments
      = ["\x7b\"text\":\"a\",\"start\":0.000000,\"end\":1.000000\x7d".toList] := by
    simp only [specEntries, nullFirstSegments, List.filterMap_cons, List.filterMap_nil,
      Option.map, segmentEntry, to_string_zero, to_string_hundred]
    decide
  have hspec : specJson nullFirstSegments
      = "\x7b\"segments\":[\x7b\"text\":\"a\",\"start\":0.000000,\"end\":1.000000\x7d]\x7d".toList := by
    rw [specJson, hentries]; decide
  have hbug : (transcribeAudio (stubLib 0 nullFirstSegments) 1 (some oneSample) 16000).result
      = "\x7b\"segments\":[,\x7b\"text\":\"a\",\"start\":0.000000,\"end\":1.000000\x7d]\x7d".toList := by
    rw [transcribeAudio_leading_comma (stubLib 0 nullFirstSegments) 1 oneSample 16000
      (by decide) (by decide) rfl rfl ⟨none, 0, 50⟩ [⟨some "a".toList, 0, 100⟩] rfl rfl]
    have : specEntries [⟨some "a".toList, 0, 100⟩] = specEntries nullFirstSegments := by
      simp [specEntries, nullFirstSegments]
    rw [this, hentries]; decide
  refine ⟨hbug, hspec, ?_, ?_⟩
  · have hfilter : (nullFirstSegments.filter fun s => s.text.isSome)
        = [⟨some "a".toList, 0, 100⟩] := by decide
    rw [hfilter]
    rw [transcribeAudio_wire_format (stubLib 0 [⟨some "a".toList, 0, 100⟩]) 1 oneSample 16000
      (by decide) (by decide) rfl rfl (Or.inl ⟨_, _, _, rfl, rfl⟩)]
    show specJson [⟨some "a".toList, 0, 100⟩] = specJson nullFirstSegments
    simp [specJson, specEntries, nullFirstSegments]
  · rw [hbug, hspec]; decide

/-- C2: the escaped text is the concatenation, character by character, of
backslash+quote for a quote, backslash+backslash for a backslash,
backslash+`n` for a newline and the character itself otherwise. The example
text `He said "hi"\nBye`, taken as the characters written (a backslash and the
letter `n` after the second quote), becomes `He said \"hi\"\\nBye`; with a
newline character in that place the loop writes one backslash and `n`. -/
theorem C2_escape_is_per_character (text : List Char) :
    escapeJson text = (text.map escapeCharSpec).flatten
      ∧ escapeCharSpec '"' = ['\\', '"']
      ∧ escapeCharSpec '\\' = ['\\', '\\']
      ∧ escapeCharSpec '\n' = ['\\', 'n']
      ∧ (∀ c : Char, c ≠ '"' ∧ c ≠ '\\' ∧ c ≠ '\n' → escapeCharSpec c = [c])
      ∧ escapeJson "He said \"hi\"\\nBye".toList = "He said \\\"hi\\\"\\\\nBye".toList
      ∧ escapeJson "He said \"hi\"\nBye".toList = "He said \\\"hi\\\"\\nBye".toList := by
  refine ⟨?_, by decide, by decide, by decide, ?_, by decide, by decide⟩
  · simp [escapeJson, escapeLoop_eq]
  · rintro c ⟨h1, h2, h3⟩
    simp [escapeCharSpec, h1, h2, h3]

/-- C2, at a text with none of the three special characters. -/
theorem C2_escape_is_per_character_witness :
    ('a' ≠ '"' ∧ 'a' ≠ '\\' ∧ 'a' ≠ '\n') ∧ escapeCharSpec 'a' = ['a'] :=
  ⟨by decide, (C2_escape_is_per_character []).2.2.2.2.1 'a' (by decide)⟩

/-- C3: the escaped text holds no newline character; every double quote in it
follows a maximal run of backslashes of odd length; and with the closing quote
of the field appended, that closing quote is unescaped while no position before
it holds an unescaped quote. -/
theorem C3_text_field_has_no_unescaped_quote (text : List Char) :
    '\n' ∉ escapeJson text
      ∧ (∀ pre post : List Char, escapeJson text = pre ++ '"' :: post →
          Odd (trailingBackslashes pre))
      ∧ (∀ rest : List Char,
          UnescapedQuoteAt (escapeJson text ++ '"' :: rest) (escapeJson text).length
          ∧ ∀ i : Nat, i < (escapeJson text).length →
              ¬ UnescapedQuoteAt (escapeJson text ++ '"' :: rest) i) := by
  obtain ⟨hn, he, hq⟩ := escInv_escapeJson text
  refine ⟨hn, hq, fun rest => ⟨⟨?_, by simpa using he⟩, ?_⟩⟩
  · rw [List.getElem?_append_right (Nat.le_refl _)]; simp
  rintro i hi ⟨hget, heven⟩
  rw [List.take_append_of_le_length (Nat.le_of_lt hi)] at heven
  rw [List.getElem?_append_left hi] at hget
  have hsplit : escapeJson text
      = (escapeJson text).take i ++ '"' :: (escapeJson text).drop (i + 1) := by
    obtain ⟨hlt, hval⟩ := List.getElem?_eq_some_iff.mp hget
    rw [← hval, ← List.drop_eq_getElem_cons hlt, List.take_append_drop]
  have hodd := hq _ _ hsplit
  exact (Nat.not_even_iff_odd.mpr hodd) heven

/-- C3, at the text `a"`. -/
theorem C3_text_field_has_no_unescaped_quote_witness :
    escapeJson "a\"".toList = "a\\".toList ++ '"' :: []
      ∧ Odd (trailingBackslashes "a\\".toList) :=
  ⟨by decide, (C3_text_field_has_no_unescaped_quote "a\"".toList).2.1 "a\\".toList [] (by decide)⟩

/-- C10: the escaping loses nothing: texts with equal escaped forms are equal,
and unescaping the escaped form of a text gives the text back. -/
theorem C10_escape_is_lossless :
    (∀ a b : List Char, escapeJson a = escapeJson b → a = b)
      ∧ ∀ a : List Char, unescapeJson (escapeJson a) = a := by
  refine ⟨fun a b h => ?_, unescape_escape⟩
  rw [← unescape_escape a, ← unescape_escape b, h]

/-- C10, at the text `say "hi"` written in two ways. -/
theorem C10_escape_is_lossless_witness :
    escapeJson "say \"hi\"".toList = escapeJson ("say ".toList ++ "\"hi\"".toList)
      ∧ "say \"hi\"".toList = "say ".toList ++ "\"hi\"".toList
      ∧ unescapeJson (escapeJson "say \"hi\"".toList) = "say \"hi\"".toList :=
  ⟨by decide, C10_escape_is_lossless.1 _ _ (by decide), C10_escape_is_lossless.2 _⟩

/-- C5: with handle `0` the result is the empty string and the only call is
the error log, whatever the sample array and the sample rate: the samples are
not read and the whisper library is not called. -/
theorem C5_zero_handle_returns_empty (lib : Whisper) (audioData : Option JShortArray)
    (sampleRate : Int) :
    (transcribeAudio lib 0 audioData sampleRate).result = []
      ∧ (transcribeAudio lib 0 audioData sampleRate).calls
          = [Call.LOGE "Invalid parameters".toList]
      ∧ ∀ c ∈ (transcribeAudio lib 0 audioData sampleRate).calls,
          c.readsSamples = false ∧ c.isEngine = false := by
  have h : transcribeAudio lib 0 audioData sampleRate
      = ⟨[], [Call.LOGE "Invalid parameters".toList]⟩ := by
    simp [transcribeAudio]
  rw [h]
  refine ⟨rfl, rfl, ?_⟩
  intro c hc
  simp only [List.mem_singleton] at hc
  subst hc
  exact ⟨rfl, rfl⟩

/-- C6: with a null sample array, or one of length zero, the result is the empty
string and no call goes to the whisper library, whatever the handle and the
sample rate. -/
theorem C6_no_samples_returns_empty (lib : Whisper) (modelPtr : Int)
    (audioData : Option JShortArray) (sampleRate : Int)
    (h : audioData = none ∨ ∃ arr, audioData = some arr ∧ arr.elems.length = 0) :
    (transcribeAudio lib modelPtr audioData sampleRate).result = []
      ∧ ∀ c ∈ (transcribeAudio lib modelPtr audioData sampleRate).calls,
          c.isEngine = false := by
  rcases h with rfl | ⟨arr, rfl, hlen⟩
  · by_cases hptr : modelPtr = 0
    · simp [transcribeAudio, hptr, Call.isEngine]
    · simp [transcribeAudio, hptr, Call.isEngine]
  · by_cases hptr : modelPtr = 0
    · simp [transcribeAudio, hptr, Call.isEngine]
    · simp [transcribeAudio, hptr, hlen, Call.isEngine]

/-- C6, at an empty array and the handle `5`. -/
theorem C6_no_samples_returns_empty_witness :
    (some (⟨[], true⟩ : JShortArray) = none
        ∨ ∃ arr, some (⟨[], true⟩ : JShortArray) = some arr ∧ arr.elems.length = 0)
      ∧ (transcribeAudio (stubLib 0 nullFirstSegments) 5 (some ⟨[], true⟩) 16000).result = []
      ∧ ∀ c ∈ (transcribeAudio (stubLib 0 nullFirstSegments) 5 (some ⟨[], true⟩) 16000).calls,
          c.isEngine = false :=
  ⟨Or.inr ⟨_, rfl, rfl⟩,
    C6_no_samples_returns_empty (stubLib 0 nullFirstSegments) 5 (some ⟨[], true⟩) 16000
      (Or.inr ⟨_, rfl, rfl⟩)⟩

/-- C4: with a nonzero handle and a non-empty sample array whose elements can
be read, the result is empty exactly when the inference returns a nonzero
status; on status `0` the result starts with the `segments` opening and ends
with its closing, and is the empty `segments` object when the engine reports no
segment; on a nonzero status the result is neither the empty object nor the
empty `segments` object. -/
theorem C4_empty_iff_inference_fails (lib : Whisper) (modelPtr : Int) (arr : JShortArray)
    (sampleRate : Int) (hptr : modelPtr ≠ 0) (hne : arr.elems ≠ [])
    (hread : arr.readable = true) :
    ((transcribeAudio lib modelPtr (some arr) sampleRate).result = []
        ↔ (lib.whisper_full modelPtr (configureParams lib) (arr.elems.map sampleToFloat)).1 ≠ 0)
      ∧ ((lib.whisper_full modelPtr (configureParams lib) (arr.elems.map sampleToFloat)).1 = 0 →
          "\x7b\"segments\":[".toList <+: (transcribeAudio lib modelPtr (some arr) sampleRate).result
          ∧ "]\x7d".toList <:+ (transcribeAudio lib modelPtr (some arr) sampleRate).result
          ∧ ((lib.whisper_full modelPtr (configureParams lib)
                (arr.elems.map sampleToFloat)).2 = [] →
              (transcribeAudio lib modelPtr (some arr) sampleRate).result
                = "\x7b\"segments\":[]\x7d".toList))
      ∧ ((lib.whisper_full modelPtr (configureParams lib) (arr.elems.map sampleToFloat)).1 ≠ 0 →
          (transcribeAudio lib modelPtr (some arr) sampleRate).result ≠ "\x7b\x7d".toList
          ∧ (transcribeAudio lib modelPtr (some arr) sampleRate).result
              ≠ "\x7b\"segments\":[]\x7d".toList) := by
  have hfail : (inferenceRun lib modelPtr arr).1 ≠ 0 →
      (transcribeAudio lib modelPtr (some arr) sampleRate).result = [] := fun h => by
    rw [transcribeAudio_failure lib modelPtr arr sampleRate hptr hne hread h]
  have hok : (inferenceRun lib modelPtr arr).1 = 0 →
      ∃ tail, (transcribeAudio lib modelPtr (some arr) sampleRate).result
        = "\x7b\"segments\":[".toList ++ tail ++ "]\x7d".toList := fun h => by
    rw [transcribeAudio_success lib modelPtr arr sampleRate hptr hne hread h]
    obtain ⟨tail, ht⟩ := segmentLoop_json modelPtr (inferenceRun lib modelPtr arr).2 0
    exact ⟨tail, by rw [ht]⟩
  change ((transcribeAudio lib modelPtr (some arr) sampleRate).result = []
        ↔ (inferenceRun lib modelPtr arr).1 ≠ 0)
      ∧ ((inferenceRun lib modelPtr arr).1 = 0 → _ ∧ _ ∧ ((inferenceRun lib modelPtr arr).2 = [] → _))
      ∧ ((inferenceRun lib modelPtr arr).1 ≠ 0 → _)
  refine ⟨⟨fun hres hzero => ?_, hfail⟩, fun hzero => ⟨?_, ?_, fun hnil => ?_⟩, fun h => ?_⟩
  · obtain ⟨tail, ht⟩ := hok hzero
    rw [ht] at hres
    simp at hres
  · obtain ⟨tail, ht⟩ := hok hzero
    rw [ht, List.append_assoc]
    exact List.prefix_append _ _
  · obtain ⟨tail, ht⟩ := hok hzero
    rw [ht]
    exact List.suffix_append _ _
  · rw [transcribeAudio_success lib modelPtr arr sampleRate hptr hne hread hzero, hnil]
    simp [segmentLoop]
  · rw [hfail h]
    exact ⟨by decide, by decide⟩

/-- C4, at one sample and an engine that reports no segment. -/
theorem C4_empty_iff_inference_fails_witness :
    ((1 : Int) ≠ 0 ∧ oneSample.elems ≠ [] ∧ oneSample.readable = true)
      ∧ (transcribeAudio (stubLib 0 []) 1 (some oneSample) 16000).result
          = "\x7b\"segments\":[]\x7d".toList :=
  ⟨⟨by decide, by decide, rfl⟩,
    (C4_empty_iff_inference_fails (stubLib 0 []) 1 oneSample 16000 (by decide) (by decide)
      rfl).2.1 rfl |>.2.2 rfl⟩

/-- C7, refuted for the empty path: the path is not null, so the initializer of
the whisper library is called with it. -/
theorem C7_empty_path_reaches_the_engine :
    Call.whisper_init_from_file_with_params []
        ∈ (initModel (stubLib 0 []) (some ⟨some "".toList⟩)).calls
      ∧ ¬ ∀ c ∈ (initModel (stubLib 0 []) (some ⟨some "".toList⟩)).calls,
          c.isEngine = false := by
  constructor
  · decide
  · intro h
    have := h (Call.whisper_init_from_file_with_params []) (by decide)
    simp [Call.isEngine] at this

/-- C7, amended: a null path, and a path whose characters JNI cannot hand out,
give `0` with no call to the whisper library; the empty path is handed to the
initializer, whose answer is the result (`0` when it returns null). -/
theorem C7_null_path_returns_zero (lib : Whisper) :
    initModel lib none = ⟨0, [Call.LOGE "Model path is null".toList]⟩
      ∧ initModel lib (some ⟨none⟩)
          = ⟨0, [Call.GetStringUTFChars, Call.LOGE "Failed to get model path string".toList]⟩
      ∧ (∀ c ∈ (initModel lib none).calls, c.isEngine = false)
      ∧ (∀ c ∈ (initModel lib (some ⟨none⟩)).calls, c.isEngine = false)
      ∧ (initModel lib (some ⟨some []⟩)).result = lib.whisper_init_from_file_with_params []
      ∧ (initModel lib (some ⟨some []⟩)).calls.filter Call.isEngine
          = [Call.whisper_context_default_params, Call.whisper_init_from_file_with_params []] := by
  refine ⟨rfl, rfl, ?_, ?_, ?_, ?_⟩
  · simp [initModel, Call.isEngine]
  · simp [initModel, Call.isEngine]
  · by_cases h : lib.whisper_init_from_file_with_params [] = 0
    · simp [initModel, h]
    · simp [initModel, h]
  · by_cases h : lib.whisper_init_from_file_with_params [] = 0
    · simp [initModel, h, Call.isEngine, List.filter]
    · simp [initModel, h, Call.isEngine, List.filter]

/-- C8: on a run that reaches the inference with 16-bit samples, the buffer
handed to `whisper_full` is the list of the exact quotients `s / 32768`, in
order; it is the only buffer handed over, has as many elements as the array,
and every element lies between `-1` and `1`; the sample `16384` becomes `1/2`
and the sample `-32768` becomes `-1`. -/
theorem C8_samples_are_scaled_exactly (lib : Whisper) (modelPtr : Int) (arr : JShortArray)
    (sampleRate : Int) (hptr : modelPtr ≠ 0) (hne : arr.elems ≠ [])
    (hread : arr.readable = true) (hrange : ∀ s ∈ arr.elems, -32768 ≤ s ∧ s ≤ 32767) :
    Call.whisper_full modelPtr (configureParams lib)
        (arr.elems.map fun s : Int => (s : ℚ) / 32768)
        ∈ (transcribeAudio lib modelPtr (some arr) sampleRate).calls
      ∧ (∀ ctx params buf,
          Call.whisper_full ctx params buf
              ∈ (transcribeAudio lib modelPtr (some arr) sampleRate).calls →
            buf = arr.elems.map fun s : Int => (s : ℚ) / 32768)
      ∧ (arr.elems.map fun s : Int => (s : ℚ) / 32768).length = arr.elems.length
      ∧ (∀ x ∈ arr.elems.map fun s : Int => (s : ℚ) / 32768, -1 ≤ x ∧ x ≤ 1)
      ∧ sampleToFloat 16384 = 1 / 2
      ∧ sampleToFloat (-32768) = -1 := by
  have hmap : arr.elems.map sampleToFloat = arr.elems.map fun s : Int => (s : ℚ) / 32768 :=
    List.map_congr_left fun s hs => sampleToFloat_exact s (hrange s hs)
  have hcalls : ∃ more : List Call,
      (transcribeAudio lib modelPtr (some arr) sampleRate).calls
        = inferenceCalls lib modelPtr arr ++ more
      ∧ ∀ c ∈ more, ∀ ctx params buf, c ≠ Call.whisper_full ctx params buf := by
    by_cases hrun : (inferenceRun lib modelPtr arr).1 = 0
    · rw [transcribeAudio_success lib modelPtr arr sampleRate hptr hne hread hrun]
      obtain ⟨more, h1, h2⟩ := segmentLoop_calls modelPtr (inferenceRun lib modelPtr arr).2 0
        "\x7b\"segments\":[".toList
        (inferenceCalls lib modelPtr arr ++ [Call.whisper_full_n_segments modelPtr])
      refine ⟨Call.whisper_full_n_segments modelPtr :: more, by rw [h1]; simp, ?_⟩
      intro c hc ctx params buf heq
      rcases List.mem_cons.mp hc with rfl | hc
      · cases heq
      · have := h2 c hc
        rw [heq] at this
        simp [Call.isAccessor] at this
    · rw [transcribeAudio_failure lib modelPtr arr sampleRate hptr hne hread hrun]
      refine ⟨[Call.LOGE "Failed to transcribe audio".toList], rfl, ?_⟩
      intro c hc ctx params buf heq
      simp only [List.mem_singleton] at hc
      rw [hc] at heq
      cases heq
  obtain ⟨more, hc1, hc2⟩ := hcalls
  refine ⟨?_, ?_, by simp, ?_, ?_, ?_⟩
  · rw [hc1, ← hmap]
    simp [inferenceCalls]
  · intro ctx params buf hmem
    rw [hc1] at hmem
    rcases List.mem_append.mp hmem with h | h
    · simp only [inferenceCalls, List.mem_cons, List.mem_singleton, List.not_mem_nil,
        or_false, reduceCtorEq, false_or] at h
      rw [← hmap]
      exact (Call.whisper_full.inj h).2.2
    · exact absurd rfl (hc2 _ h ctx params buf)
  · intro x hx
    obtain ⟨s, hs, rfl⟩ := List.mem_map.mp hx
    obtain ⟨h1, h2⟩ := hrange s hs
    have h1q : (-32768 : ℚ) ≤ (s : ℚ) := by exact_mod_cast h1
    have h2q : (s : ℚ) ≤ 32767 := by exact_mod_cast h2
    constructor
    · rw [le_div_iff₀ (by norm_num)]; linarith
    · rw [div_le_iff₀ (by norm_num)]; linarith
  · rw [sampleToFloat_exact 16384 (by norm_num)]; norm_num
  · rw [sampleToFloat_exact (-32768) (by norm_num)]; norm_num

/-- C8, at the two samples `16384` and `-32768`. -/
theorem C8_samples_are_scaled_exactly_witness :
    ((1 : Int) ≠ 0 ∧ (⟨[16384, -32768], true⟩ : JShortArray).elems ≠ []
        ∧ (⟨[16384, -32768], true⟩ : JShortArray).readable = true
        ∧ ∀ s ∈ (⟨[16384, -32768], true⟩ : JShortArray).elems, -32768 ≤ s ∧ s ≤ 32767)
      ∧ Call.whisper_full 1 (configureParams (stubLib 0 []))
          ((⟨[16384, -32768], true⟩ : JShortArray).elems.map fun s : Int => (s : ℚ) / 32768)
        ∈ (transcribeAudio (stubLib 0 []) 1 (some ⟨[16384, -32768], true⟩) 16000).calls :=
  ⟨⟨by decide, by decide, rfl, by decide⟩,
    (C8_samples_are_scaled_exactly (stubLib 0 []) 1 ⟨[16384, -32768], true⟩ 16000
      (by decide) (by decide) rfl (by decide)).1⟩

/-- C9, refuted at the time stamp `429496729619`: the number written is
`4294967296.190001`, which is not `429496729619 / 100`. -/
theorem C9_late_time_stamp_is_not_exact :
    (transcribeAudio (stubLib 0 lateSegments) 1 (some oneSample) 16000).result
        = ("\x7b\"segments\":[\x7b\"text\":\"a\",\"start\":4294967296.190001," ++
            "\"end\":4294967296.190001\x7d]\x7d").toList
      ∧ to_string (toSeconds 429496729619) = "4294967296.190001".toList
      ∧ decimalValue (to_string (toSeconds 429496729619)) ≠ (429496729619 : ℚ) / 100 := by
  refine ⟨?_, to_string_large, ?_⟩
  · rw [transcribeAudio_wire_format (stubLib 0 lateSegments) 1 oneSample 16000
      (by decide) (by decide) rfl rfl (Or.inl ⟨_, _, _, rfl, rfl⟩)]
    show specJson lateSegments = _
    simp only [specJson, specEntries, lateSegments, List.filterMap_cons, List.filterMap_nil,
      Option.map, segmentEntry, to_string_large]
    decide
  · rw [to_string_large]
    have : decimalValue "4294967296.190001".toList = 4294967296190001 / 1000000 := by
      simp [decimalValue, digitsValue, List.takeWhile, List.dropWhile]
      norm_num
    rw [this]
    norm_num

/-- C9, amended: for time stamps below `429496729600` hundredths of a second
(`2 ^ 32` seconds) in absolute value, the entry of a segment carries after
`"start":` and `"end":` the decimal numerals of `t0 / 100` and `t1 / 100` with
six fraction digits, which denote exactly these quotients, and a run whose
engine reports this one segment returns that entry between the brackets; for
`t0 = 150` and `t1 = 320` the entry reads `"start":1.500000` and
`"end":3.200000` and so contains `"start":1.5` and `"end":3.2`. -/
theorem C9_times_are_hundredths (text : List Char) (t0 t1 : Int)
    (h0 : |t0| < 429496729600) (h1 : |t1| < 429496729600) :
    segmentEntry (escapeJson text) (toSeconds t0) (toSeconds t1)
        = "\x7b\"text\":\"".toList ++ escapeJson text ++ "\",\"start\":".toList
          ++ centisecondsDecimal t0 ++ ",\"end\":".toList ++ centisecondsDecimal t1
          ++ "\x7d".toList
      ∧ decimalValue (to_string (toSeconds t0)) = (t0 : ℚ) / 100
      ∧ decimalValue (to_string (toSeconds t1)) = (t1 : ℚ) / 100
      ∧ (transcribeAudio (stubLib 0 [⟨some text, t0, t1⟩]) 1 (some oneSample) 16000).result
        = "\x7b\"segments\":[\x7b\"text\":\"".toList ++ escapeJson text
          ++ "\",\"start\":".toList ++ centisecondsDecimal t0 ++ ",\"end\":".toList
          ++ centisecondsDecimal t1 ++ "\x7d]\x7d".toList
      ∧ segmentEntry (escapeJson text) (toSeconds 150) (toSeconds 320)
        = "\x7b\"text\":\"".toList ++ escapeJson text
          ++ "\",\"start\":1.500000,\"end\":3.200000\x7d".toList
      ∧ "\"start\":1.5".toList <:+: segmentEntry (escapeJson text) (toSeconds 150) (toSeconds 320)
      ∧ "\"end\":3.2".toList <:+: segmentEntry (escapeJson text) (toSeconds 150) (toSeconds 320) := by
  have e0 := to_string_toSeconds t0 h0
  have e1 := to_string_toSeconds t1 h1
  have e150 : to_string (toSeconds 150) = "1.500000".toList := by
    rw [to_string_toSeconds 150 (by norm_num)]; decide
  have e320 : to_string (toSeconds 320) = "3.200000".toList := by
    rw [to_string_toSeconds 320 (by norm_num)]; decide
  have hentry : segmentEntry (escapeJson text) (toSeconds 150) (toSeconds 320)
      = "\x7b\"text\":\"".toList ++ escapeJson text
        ++ "\",\"start\":1.500000,\"end\":3.200000\x7d".toList := by
    simp [segmentEntry, e150, e320]
  refine ⟨by simp [segmentEntry, e0, e1], ?_, ?_, ?_, hentry, ?_, ?_⟩
  · rw [e0, decimalValue_centisecondsDecimal]
  · rw [e1, decimalValue_centisecondsDecimal]
  · rw [transcribeAudio_wire_format (stubLib 0 [⟨some text, t0, t1⟩]) 1 oneSample 16000
      (by decide) (by decide) rfl rfl (Or.inl ⟨_, _, _, rfl, rfl⟩)]
    show specJson [⟨some text, t0, t1⟩] = _
    simp [specJson, specEntries, segmentEntry, e0, e1, List.intercalate]
  · rw [hentry]
    refine ⟨"\x7b\"text\":\"".toList ++ escapeJson text ++ "\",".toList,
      "00000,\"end\":3.200000\x7d".toList, ?_⟩
    simp
  · rw [hentry]
    refine ⟨"\x7b\"text\":\"".toList ++ escapeJson text ++ "\",\"start\":1.500000,".toList,
      "00000\x7d".toList, ?_⟩
    simp

/-- C9, at the times `150` and `320` of a segment `hi`. -/
theorem C9_times_are_hundredths_witness :
    (|(150 : Int)| < 429496729600 ∧ |(320 : Int)| < 429496729600)
      ∧ decimalValue (to_string (toSeconds 150)) = ((150 : Int) : ℚ) / 100
      ∧ decimalValue (to_string (toSeconds 320)) = ((320 : Int) : ℚ) / 100
      ∧ (transcribeAudio (stubLib 0 [⟨some "hi".toList, 150, 320⟩]) 1 (some oneSample)
          16000).result
        = "\x7b\"segments\":[\x7b\"text\":\"hi\",\"start\":1.500000,\"end\":3.200000\x7d]\x7d".toList :=
  ⟨⟨by decide, by decide⟩,
    (C9_times_are_hundredths "hi".toList 150 320 (by decide) (by decide)).2.1,
    (C9_times_are_hundredths "hi".toList 150 320 (by decide) (by decide)).2.2.1,
    (C9_times_are_hundredths "hi".toList 150 320 (by decide) (by decide)).2.2.2.1.trans
      (by decide)⟩

end WhisperJni
